import Mathlib

/-!
Verification of the sync core of the obsidian-gsync plugin.

The definitions below are a shallow embedding of `src/syncService.ts`
(`SyncService`: `shouldExclude`, `buildLocalFileIndex`, `createSyncPlan`,
`executeSyncPlan`, `resolveConflict`, `sync`) and of
`src/googleDrive.ts` (`GoogleDriveService.buildRemoteFileIndex`), together
with the data model of `src/settings.ts` (`FileMetadata`, `ConflictInfo`,
`GSyncSettings`).

JavaScript strings are modelled as Lean `String` with character-list
operations mirroring `String.prototype.startsWith` / `endsWith` /
`split`; timestamps (`Date.getTime()` values) are modelled as `Nat`;
JavaScript `Map` objects are modelled as association lists in insertion
order; `async` methods that can throw are modelled with `Except`, and
the outcomes of the fallible I/O calls a method makes are passed in
explicitly as an environment.
-/

namespace GSync

/-- Here `startsWithL pre l` decides whether the character list `pre` is an
initial run of `l`; `jsStartsWith s p` is JS `s.startsWith(p)`. -/
def startsWithL : List Char → List Char → Bool
  | [], _ => true
  | _ :: _, [] => false
  | c :: cs, d :: ds => c = d && startsWithL cs ds

/-- JS `s.startsWith(p)`. -/
def jsStartsWith (s p : String) : Bool :=
  startsWithL p.data s.data

/-- JS `s.endsWith(p)`: the characters of `p` are a final run of `s`. -/
def jsEndsWith (s p : String) : Bool :=
  startsWithL p.data.reverse s.data.reverse

/-- JS `s.split(sep)` on the character level: splits into the (possibly
empty) runs between occurrences of `sep`.  `splitOnCh sep "" = [""]`,
matching JS. -/
def splitOnCh (sep : Char) : List Char → List (List Char)
  | [] => [[]]
  | c :: cs =>
    match splitOnCh sep cs with
    | [] => [[]]
    | seg :: rest => if c = sep then [] :: seg :: rest else (c :: seg) :: rest

/-- JS `parts.join(sep)` on the character level. -/
def joinWithCh (sep : Char) : List (List Char) → List Char
  | [] => []
  | [s] => s
  | s :: rest => s ++ sep :: joinWithCh sep rest

/-- The slice of `GSyncSettings` (src/settings.ts) that the sync logic
reads: exclusion rules, the conflict policy and the persisted watermark
are passed separately where needed. -/
structure ExclusionSettings where
  excludedFolders : List String
  excludedExtensions : List String
  includeHiddenFiles : Bool
deriving DecidableEq

/-- Source `SyncService.shouldExclude` (src/syncService.ts): a path is excluded
when it starts (as a raw string) with a configured folder name or with
`'/' + folder`, or ends with a configured extension, or (unless hidden
files are included) some `/`-separated segment other than `"."` starts
with a dot. -/
def shouldExclude (s : ExclusionSettings) (path : String) : Bool :=
  s.excludedFolders.any
      (fun folder => jsStartsWith path folder || jsStartsWith path ("/" ++ folder))
    || s.excludedExtensions.any (fun ext => jsEndsWith path ext)
    || (!s.includeHiddenFiles &&
        (splitOnCh '/' path.data).any
          (fun part => startsWithL ['.'] part && !(part = ['.'] : Bool)))

/-- Source `FileMetadata` (src/settings.ts). -/
structure FileMetadata where
  path : String
  name : String
  mtime : Nat
  size : Nat
  isFolder : Bool
  driveId : Option String := none
  driveMtime : Option Nat := none
  md5Checksum : Option String := none
deriving DecidableEq

/-- Source `ConflictInfo` (src/settings.ts). -/
structure ConflictInfo where
  localFile : FileMetadata
  remoteFile : FileMetadata
  path : String
deriving DecidableEq

/-- A file index: JS `Map<string, FileMetadata>` in insertion order. -/
abbrev Index := List (String × FileMetadata)

/-- Source `SyncPlan` (src/syncService.ts). -/
structure SyncPlan where
  uploads : List FileMetadata
  downloads : List FileMetadata
  deleteLocal : List FileMetadata
  deleteRemote : List FileMetadata
  conflicts : List ConflictInfo
deriving DecidableEq

/-- The empty plan `createSyncPlan` starts from. -/
def emptyPlan : SyncPlan :=
  { uploads := [], downloads := [], deleteLocal := [], deleteRemote := [], conflicts := [] }

/-- One iteration of the first loop of `createSyncPlan` (over the local
index): decides what the entry `(path, localFile)` contributes. -/
def planLocalStep (lastSyncTime : Nat) (remoteIndex : Index)
    (plan : SyncPlan) (pair : String × FileMetadata) : SyncPlan :=
  match List.lookup pair.1 remoteIndex with
  | none =>
    if lastSyncTime = 0 ∨ pair.2.mtime > lastSyncTime then
      { plan with uploads := plan.uploads ++ [pair.2] }
    else
      { plan with deleteLocal := plan.deleteLocal ++ [pair.2] }
  | some remoteFile =>
    if pair.2.isFolder = false ∧ remoteFile.isFolder = false then
      if pair.2.mtime > remoteFile.driveMtime.getD 0 ∧
          remoteFile.driveMtime.getD 0 > pair.2.mtime then
        { plan with conflicts := plan.conflicts ++
            [{ localFile := pair.2, remoteFile := remoteFile, path := pair.1 }] }
      else if pair.2.mtime > remoteFile.driveMtime.getD 0 ∧
          pair.2.mtime > lastSyncTime then
        { plan with uploads := plan.uploads ++
            [{ pair.2 with driveId := remoteFile.driveId }] }
      else if remoteFile.driveMtime.getD 0 > pair.2.mtime ∧
          remoteFile.driveMtime.getD 0 > lastSyncTime then
        { plan with downloads := plan.downloads ++ [remoteFile] }
      else
        plan
    else
      plan

/-- One iteration of the second loop of `createSyncPlan` (over the remote
index): remote entries with no local counterpart. -/
def planRemoteStep (lastSyncTime : Nat) (localIndex : Index)
    (plan : SyncPlan) (pair : String × FileMetadata) : SyncPlan :=
  if (List.lookup pair.1 localIndex).isSome then
    plan
  else if lastSyncTime = 0 ∨ pair.2.driveMtime.getD 0 > lastSyncTime then
    { plan with downloads := plan.downloads ++ [pair.2] }
  else
    { plan with deleteRemote := plan.deleteRemote ++ [pair.2] }

/-- Source `SyncService.createSyncPlan` (src/syncService.ts): first loop over the
local index, then loop over the remote index. -/
def createSyncPlan (localIndex remoteIndex : Index) (lastSyncTime : Nat) : SyncPlan :=
  remoteIndex.foldl (planRemoteStep lastSyncTime localIndex)
    (localIndex.foldl (planLocalStep lastSyncTime remoteIndex) emptyPlan)

/-- All paths mentioned by any category of a plan. -/
def planPaths (plan : SyncPlan) : List String :=
  plan.uploads.map (·.path) ++ plan.downloads.map (·.path) ++
    plan.deleteLocal.map (·.path) ++ plan.deleteRemote.map (·.path) ++
    plan.conflicts.map (·.path)

/-- An index is well formed when every entry's metadata records the key it
is stored under; both index builders establish this. -/
def WellFormed (idx : Index) : Prop :=
  ∀ pr ∈ idx, (pr : String × FileMetadata).2.path = pr.1

instance (idx : Index) : Decidable (WellFormed idx) := by
  unfold WellFormed; infer_instance

/-- Modelled from the spec (§4.1): the claim's segment-aligned variant of
the excluded-folder rule, used only to compare against the source's
`shouldExclude`.  `segsPre a b` decides whether the segment list `a` is a
leading run of `b`. -/
def segsPre : List (List Char) → List (List Char) → Bool
  | [], _ => true
  | _ :: _, [] => false
  | a :: as, b :: bs => a = b && segsPre as bs

/-- Modelled from the spec (§4.1): the excluded folder name equals the
path or is a leading sequence of its `/`-separated segments. -/
def segmentPrefixMatch (folder path : String) : Bool :=
  segsPre (splitOnCh '/' folder.data) (splitOnCh '/' path.data)

/-- A local file as the vault adapter reports it: `stat` yields `mtime`
and `size`. -/
structure LocalFile where
  path : String
  name : String
  mtime : Nat
  size : Nat
deriving DecidableEq

mutual
/-- A vault folder (`TFolder`): path, name and child folders. -/
inductive VFolder where
  | mk (path : String) (name : String) (children : VForest)
/-- A list of vault folders (separate type so mutual recursion stays
structural). -/
inductive VForest where
  | nil
  | cons (head : VFolder) (tail : VForest)
end

/-- The vault as `buildLocalFileIndex` sees it: the flat file list
(`vault.getFiles()`) and the folder tree from `vault.getRoot()`. -/
structure Vault where
  files : List LocalFile
  root : VFolder

/-- The metadata `processFile` records for a local file. -/
def localFileMeta (f : LocalFile) : FileMetadata :=
  { path := f.path, name := f.name, mtime := f.mtime, size := f.size, isFolder := false }

/-- The metadata `processFolder` records for a local folder. -/
def localFolderMeta (p n : String) : FileMetadata :=
  { path := p, name := n, mtime := 0, size := 0, isFolder := true }

/-- The `processFile` half of `SyncService.buildLocalFileIndex`: each
non-excluded file is indexed under its path. -/
def fileIndexEntries (s : ExclusionSettings) (files : List LocalFile) : Index :=
  files.filterMap fun f =>
    if shouldExclude s f.path then none
    else some (f.path, localFileMeta f)

mutual
/-- The `processAllFolders` walk of `SyncService.buildLocalFileIndex`: the folder
itself is indexed unless excluded or the root `"/"`; recursion into the
children continues regardless. -/
def processAllFolders (s : ExclusionSettings) : VFolder → Index
  | .mk p n children =>
    (if shouldExclude s p then []
     else if p = "/" then []
     else [(p, localFolderMeta p n)])
      ++ processForest s children
def processForest (s : ExclusionSettings) : VForest → Index
  | .nil => []
  | .cons f rest => processAllFolders s f ++ processForest s rest
end

/-- Source `SyncService.buildLocalFileIndex`: files first, then folders. -/
def buildLocalFileIndex (s : ExclusionSettings) (v : Vault) : Index :=
  fileIndexEntries s v.files ++ processAllFolders s v.root

mutual
/-- A remote Drive entry as `listAllFiles` returns it (pagination already
drained), plus its recursively listed children. -/
inductive RNode where
  | mk (id : String) (name : String) (mimeType : String) (modifiedTime : Nat)
      (size : Nat) (md5Checksum : Option String) (children : RForest)
/-- The listing of one remote container. -/
inductive RForest where
  | nil
  | cons (head : RNode) (tail : RForest)
end

/-- The folder MIME type tested by `buildRemoteFileIndex`. -/
def driveFolderMime : String := "application/vnd.google-apps.folder"

/-- Source `GoogleDriveService.buildRemoteFileIndex` (src/googleDrive.ts): every
listed entry is indexed under `basePath/name`; folders are recursed into;
no exclusion predicate is consulted. -/
def buildRemoteFileIndex (basePath : String) : RForest → Index
  | .nil => []
  | .cons (.mk fid fname fmime fmtime fsize fmd5 fchildren) rest =>
    (if basePath = "" then fname else basePath ++ "/" ++ fname,
      { path := if basePath = "" then fname else basePath ++ "/" ++ fname,
        name := fname, mtime := fmtime, size := fsize,
        isFolder := fmime == driveFolderMime, driveId := some fid,
        driveMtime := some fmtime, md5Checksum := fmd5 }) ::
      ((if fmime == driveFolderMime then
          buildRemoteFileIndex (if basePath = "" then fname else basePath ++ "/" ++ fname) fchildren
        else []) ++ buildRemoteFileIndex basePath rest)

/-- One unit of work of `executeSyncPlan`, used to trace which plan
entries were attempted. -/
inductive PlanItem where
  | conflictItem (c : ConflictInfo)
  | uploadItem (f : FileMetadata)
  | downloadItem (f : FileMetadata)
  | deleteLocalItem (f : FileMetadata)
  | deleteRemoteItem (f : FileMetadata)
deriving DecidableEq

/-- The two item kinds whose handlers (`deleteLocalFile`,
`deleteRemoteFile`) swallow errors in a catch block. -/
def PlanItem.isDeleteItem : PlanItem → Bool
  | .deleteLocalItem _ => true
  | .deleteRemoteItem _ => true
  | _ => false

/-- The conflict loop of `executeSyncPlan`: `resolveConflict` is awaited
with no catch, so a failure propagates with the items attempted so far. -/
def runConflicts (fails : PlanItem → Bool) (attempted : List PlanItem) :
    List ConflictInfo → Except (List PlanItem) (List PlanItem)
  | [] => .ok attempted
  | c :: rest =>
    if fails (.conflictItem c) then .error (attempted ++ [.conflictItem c])
    else runConflicts fails (attempted ++ [.conflictItem c]) rest

/-- The upload loop of `executeSyncPlan`: folders are skipped;
`uploadFile` catches, logs and re-throws, so a failure propagates. -/
def runUploads (fails : PlanItem → Bool) (attempted : List PlanItem) :
    List FileMetadata → Except (List PlanItem) (List PlanItem)
  | [] => .ok attempted
  | f :: rest =>
    if f.isFolder then runUploads fails attempted rest
    else if fails (.uploadItem f) then .error (attempted ++ [.uploadItem f])
    else runUploads fails (attempted ++ [.uploadItem f]) rest

/-- The download loop of `executeSyncPlan`: folders are skipped; an entry
without a drive id returns early and cannot fail; otherwise
`downloadFile` catches, logs and re-throws, so a failure propagates. -/
def runDownloads (fails : PlanItem → Bool) (attempted : List PlanItem) :
    List FileMetadata → Except (List PlanItem) (List PlanItem)
  | [] => .ok attempted
  | f :: rest =>
    if f.isFolder then runDownloads fails attempted rest
    else if f.driveId.isSome && fails (.downloadItem f) then
      .error (attempted ++ [.downloadItem f])
    else runDownloads fails (attempted ++ [.downloadItem f]) rest

/-- Source `SyncService.executeSyncPlan`: conflicts, then uploads, then
downloads, then local deletions, then remote deletions.
`deleteLocalFile` and `deleteRemoteFile` wrap their whole body in a
catch that only logs, so the two deletion loops always run to the end;
a failure in the first three loops propagates and aborts the rest.  The
result carries the trace of attempted items; `.error` means the
exception escaped `executeSyncPlan`. -/
def executeSyncPlan (fails : PlanItem → Bool) (plan : SyncPlan) :
    Except (List PlanItem) (List PlanItem) :=
  match runConflicts fails [] plan.conflicts with
  | .error t => .error t
  | .ok a1 =>
    match runUploads fails a1 plan.uploads with
    | .error t => .error t
    | .ok a2 =>
      match runDownloads fails a2 plan.downloads with
      | .error t => .error t
      | .ok a3 =>
        .ok ((a3 ++ plan.deleteLocal.map PlanItem.deleteLocalItem)
          ++ plan.deleteRemote.map PlanItem.deleteRemoteItem)

/-- The `conflictResolution` setting (src/settings.ts): `'local' |
'remote' | 'newer' | 'ask'`. -/
inductive ConflictResolution where
  | keepLocal
  | keepRemote
  | newer
  | ask
deriving DecidableEq

/-- A local-filesystem or remote effect emitted by `resolveConflict` /
`downloadFile`, in order. -/
inductive FsOp where
  | createLocal (path content : String)
  | writeLocal (path content : String)
  | ensureDir (path : String)
  | uploadRemote (f : FileMetadata)
deriving DecidableEq

/-- JS `p.substring(0, p.lastIndexOf('/'))`: everything before the last
slash, `""` when there is none. -/
def parentPath (p : String) : String :=
  String.mk (joinWithCh '/' ((splitOnCh '/' p.data).dropLast))

/-- The renamed-copy path the `'ask'` branch of `resolveConflict` builds:
split on `'.'`, pop the extension when there is one, and insert
`_conflict_<now>` before it. -/
def conflictCopyName (path : String) (now : Nat) : String :=
  if (splitOnCh '.' path.data).length > 1 then
    String.mk (joinWithCh '.' (splitOnCh '.' path.data).dropLast)
      ++ "_conflict_" ++ toString now ++ ("." ++ String.mk ((splitOnCh '.' path.data).getLastD []))
  else
    path ++ "_conflict_" ++ toString now

/-- The effects of `SyncService.downloadFile`: nothing without a drive
id; otherwise ensure the parent folder when the path has one, then write
the downloaded bytes to the entry's own path.  `remoteContent` maps a
drive id to the bytes `driveService.downloadFile` returns. -/
def downloadFileOps (remoteContent : String → String) (f : FileMetadata) : List FsOp :=
  match f.driveId with
  | none => []
  | some fid =>
    (if parentPath f.path = "" then [] else [FsOp.ensureDir (parentPath f.path)])
      ++ [FsOp.writeLocal f.path (remoteContent fid)]

/-- The effects of `SyncService.resolveConflict` for each policy; `fs`
is the local filesystem contents read by `vault.adapter.read`, and
`none` models the read of a missing file rejecting. -/
def resolveConflictOps (resolution : ConflictResolution) (remoteContent : String → String)
    (fs : List (String × String)) (now : Nat) (c : ConflictInfo) : Option (List FsOp) :=
  match resolution with
  | .keepLocal => some [FsOp.uploadRemote c.localFile]
  | .keepRemote => some (downloadFileOps remoteContent c.remoteFile)
  | .newer =>
    if c.localFile.mtime > c.remoteFile.driveMtime.getD 0 then
      some [FsOp.uploadRemote c.localFile]
    else
      some (downloadFileOps remoteContent c.remoteFile)
  | .ask =>
    match List.lookup c.path fs with
    | none => none
    | some content =>
      some (FsOp.createLocal (conflictCopyName c.path now) content ::
        downloadFileOps remoteContent c.remoteFile)

/-- Applying one effect to the local filesystem (later writes shadow
earlier ones under `List.lookup`). -/
def applyFsOp (fs : List (String × String)) : FsOp → List (String × String)
  | .createLocal p content => (p, content) :: fs
  | .writeLocal p content => (p, content) :: fs
  | .ensureDir _ => fs
  | .uploadRemote _ => fs

/-- Applying a list of effects in order. -/
def applyFsOps (fs : List (String × String)) (ops : List FsOp) : List (String × String) :=
  ops.foldl applyFsOp fs

/-- The mutable state `SyncService.sync` reads and writes: the
`isSyncing` flag, the authentication predicate, and the persisted
`syncFolderId` and `lastSyncTime` settings. -/
structure SyncState where
  isSyncing : Bool
  authenticated : Bool
  syncFolderId : String
  lastSyncTime : Nat
deriving DecidableEq

/-- How one invocation of `sync()` returns. -/
inductive SyncOutcome where
  | busy
  | notAuthenticated
  | success
  | failed
deriving DecidableEq

/-- The outcomes of the awaited calls one run of `sync()` makes, plus
the two instants of the run.  `startTime` is when the run begins; the
code never reads it.  `completionTime` is the value `Date.now()` returns
right after `executeSyncPlan`. -/
structure SyncEnv where
  startTime : Nat
  folderResult : Except Unit String
  localIndexResult : Except Unit Index
  remoteIndexResult : Except Unit Index
  execFails : PlanItem → Bool
  completionTime : Nat

/-- Source `SyncService.sync` (src/syncService.ts): busy guard, authentication
guard, then a try block (ensure folder, build both indices, plan,
execute, stamp `lastSyncTime := Date.now()`), a catch that reports
failure, and a finally that clears `isSyncing`. -/
def sync (s : SyncState) (env : SyncEnv) : SyncState × SyncOutcome :=
  if s.isSyncing then (s, .busy)
  else if s.authenticated = false then (s, .notAuthenticated)
  else
    match (if s.syncFolderId = "" then env.folderResult else .ok s.syncFolderId) with
    | .error _ => ({ s with isSyncing := false }, .failed)
    | .ok folderId =>
      match env.localIndexResult with
      | .error _ => ({ s with syncFolderId := folderId, isSyncing := false }, .failed)
      | .ok li =>
        match env.remoteIndexResult with
        | .error _ => ({ s with syncFolderId := folderId, isSyncing := false }, .failed)
        | .ok ri =>
          match executeSyncPlan env.execFails (createSyncPlan li ri s.lastSyncTime) with
          | .error _ => ({ s with syncFolderId := folderId, isSyncing := false }, .failed)
          | .ok _ =>
            ({ s with
                syncFolderId := folderId
                isSyncing := false
                lastSyncTime := env.completionTime }, .success)

/-- Source `SyncService.isSyncInProgress`. -/
def isSyncInProgress (s : SyncState) : Bool :=
  s.isSyncing

/-! Concrete inputs used by the scenario evaluations, counterexamples and
witnesses below. -/

/-- Scenario C's local `c.md`: mtime 600. -/
def scenarioCLocalFile : FileMetadata :=
  { path := "c.md", name := "c.md", mtime := 600, size := 1, isFolder := false }

/-- Scenario C's remote `c.md`: remote modification time 700. -/
def scenarioCRemoteFile : FileMetadata :=
  { path := "c.md", name := "c.md", mtime := 700, size := 1, isFolder := false,
    driveId := some "rid", driveMtime := some 700 }

def scenarioCLocalIndex : Index := [("c.md", scenarioCLocalFile)]

def scenarioCRemoteIndex : Index := [("c.md", scenarioCRemoteFile)]

/-- The Scenario C conflict pair, used for the `keep-both` resolution. -/
def scenarioCConflict : ConflictInfo :=
  { localFile := scenarioCLocalFile, remoteFile := scenarioCRemoteFile, path := "c.md" }

/-- Settings excluding only the `.tmp` extension. -/
def tmpOnlySettings : ExclusionSettings :=
  { excludedFolders := [], excludedExtensions := [".tmp"], includeHiddenFiles := true }

/-- A remote tree holding a single file `x.tmp`. -/
def remoteTmpForest : RForest :=
  .cons (.mk "id1" "x.tmp" "text/plain" 100 5 none .nil) .nil

/-- The plugin's default exclusion settings (src/settings.ts). -/
def defaultExclusionSettings : ExclusionSettings :=
  { excludedFolders := [".obsidian", ".git", ".trash"], excludedExtensions := [],
    includeHiddenFiles := false }

/-- A vault holding `.obsidian/app.json`, `note.md` and the `.obsidian`
folder. -/
def sampleVault : Vault :=
  { files := [{ path := ".obsidian/app.json", name := "app.json", mtime := 10, size := 1 },
      { path := "note.md", name := "note.md", mtime := 20, size := 2 }],
    root := .mk "/" "" (.cons (.mk ".obsidian" ".obsidian" .nil) .nil) }

/-- Settings excluding only the folder name `.git`, with hidden files
included so only the folder rule can fire. -/
def gitOnlySettings : ExclusionSettings :=
  { excludedFolders := [".git"], excludedExtensions := [], includeHiddenFiles := true }

def uploadFileA : FileMetadata :=
  { path := "a.md", name := "a.md", mtime := 100, size := 1, isFolder := false }

def uploadFileB : FileMetadata :=
  { path := "b.md", name := "b.md", mtime := 100, size := 1, isFolder := false }

/-- A plan holding exactly two uploads. -/
def twoUploadPlan : SyncPlan :=
  { uploads := [uploadFileA, uploadFileB], downloads := [], deleteLocal := [],
    deleteRemote := [], conflicts := [] }

/-- A plan holding one local deletion and one remote deletion. -/
def deleteOnlyPlan : SyncPlan :=
  { uploads := [], downloads := [], deleteLocal := [uploadFileA],
    deleteRemote := [uploadFileB], conflicts := [] }

/-- A failure oracle failing exactly the upload of `a.md`. -/
def failFirstUpload : PlanItem → Bool :=
  fun it => it = PlanItem.uploadItem uploadFileA

/-- An idle authenticated state with watermark 0. -/
def idleState : SyncState :=
  { isSyncing := false, authenticated := true, syncFolderId := "root", lastSyncTime := 0 }

/-- A state in which another run currently holds the `isSyncing` flag. -/
def busyState : SyncState :=
  { isSyncing := true, authenticated := true, syncFolderId := "root", lastSyncTime := 0 }

/-- A run taking 100 time units (start 100, completion 200) in which every
awaited call succeeds over empty trees. -/
def quietEnv : SyncEnv :=
  { startTime := 100, folderResult := .ok "root", localIndexResult := .ok [],
    remoteIndexResult := .ok [], execFails := fun _ => false, completionTime := 200 }

/-- A local/remote pair at `d.md` with identical timestamps. -/
def equalTimeLocalFile : FileMetadata :=
  { path := "d.md", name := "d.md", mtime := 700, size := 1, isFolder := false }

def equalTimeRemoteFile : FileMetadata :=
  { path := "d.md", name := "d.md", mtime := 700, size := 1, isFolder := false,
    driveId := some "rid2", driveMtime := some 700 }

/-- A local folder and a remote file sharing the path `att`. -/
def mismatchLocalFolder : FileMetadata :=
  { path := "att", name := "att", mtime := 0, size := 0, isFolder := true }

def mismatchRemoteFile : FileMetadata :=
  { path := "att", name := "att", mtime := 900, size := 3, isFolder := false,
    driveId := some "rid3", driveMtime := some 900 }

lemma mem_of_lookup {l : Index} {k : String} {v : FileMetadata}
    (h : List.lookup k l = some v) : (k, v) ∈ l := by
  induction l with
  | nil => simp at h
  | cons p rest ih =>
    obtain ⟨k', v'⟩ := p
    rw [List.lookup_cons] at h
    cases hb : (k == k') with
    | true =>
      rw [hb] at h
      obtain rfl : k = k' := by simpa using hb
      obtain rfl : v' = v := Option.some.inj h
      exact List.mem_cons_self _ _
    | false =>
      rw [hb] at h
      exact List.mem_cons_of_mem _ (ih h)

lemma lookup_of_mem_nodup {l : Index} {k : String} {v : FileMetadata}
    (hnd : (l.map Prod.fst).Nodup) (hmem : (k, v) ∈ l) :
    List.lookup k l = some v := by
  induction l with
  | nil => simp at hmem
  | cons p rest ih =>
    obtain ⟨k', v'⟩ := p
    rcases List.mem_cons.mp hmem with h | h
    · obtain ⟨rfl, rfl⟩ := Prod.mk.injEq k v k' v' ▸ h
      rw [List.lookup_cons]
      simp
    · have hk : k ≠ k' := by
        rintro rfl
        have : k ∈ rest.map Prod.fst := List.mem_map_of_mem Prod.fst h
        exact (List.nodup_cons.mp (by simpa using hnd)).1 this
      rw [List.lookup_cons]
      have hb : (k == k') = false := beq_eq_false_iff_ne.mpr hk
      rw [hb]
      exact ih (List.nodup_cons.mp (by simpa using hnd)).2 h

/-- The conflict branch of `planLocalStep` is unreachable: its guard asks
for `a > b` and `b > a` on the same two timestamps. -/
lemma planLocalStep_conflicts (t : Nat) (ri : Index) (plan : SyncPlan)
    (pr : String × FileMetadata) :
    (planLocalStep t ri plan pr).conflicts = plan.conflicts := by
  unfold planLocalStep
  split
  · split_ifs <;> rfl
  · split_ifs with h1 h2 h3 h4
    · exact absurd h2.2 (Nat.lt_asymm h2.1)
    · rfl
    · rfl
    · rfl
    · rfl

lemma planRemoteStep_conflicts (t : Nat) (li : Index) (plan : SyncPlan)
    (pr : String × FileMetadata) :
    (planRemoteStep t li plan pr).conflicts = plan.conflicts := by
  unfold planRemoteStep
  split_ifs <;> rfl

lemma foldl_planLocalStep_conflicts (t : Nat) (ri : Index) (l : List (String × FileMetadata))
    (plan : SyncPlan) :
    (l.foldl (planLocalStep t ri) plan).conflicts = plan.conflicts := by
  induction l generalizing plan with
  | nil => rfl
  | cons pr rest ih => rw [List.foldl_cons, ih, planLocalStep_conflicts]

lemma foldl_planRemoteStep_conflicts (t : Nat) (li : Index) (l : List (String × FileMetadata))
    (plan : SyncPlan) :
    (l.foldl (planRemoteStep t li) plan).conflicts = plan.conflicts := by
  induction l generalizing plan with
  | nil => rfl
  | cons pr rest ih => rw [List.foldl_cons, ih, planRemoteStep_conflicts]

lemma mem_planPaths_addUpload {plan : SyncPlan} {f : FileMetadata} {x : String} :
    x ∈ planPaths { plan with uploads := plan.uploads ++ [f] } ↔
      x ∈ planPaths plan ∨ x = f.path := by
  simp only [planPaths, List.map_append, List.mem_append, List.map_cons, List.map_nil,
    List.mem_singleton]
  tauto

lemma mem_planPaths_addDownload {plan : SyncPlan} {f : FileMetadata} {x : String} :
    x ∈ planPaths { plan with downloads := plan.downloads ++ [f] } ↔
      x ∈ planPaths plan ∨ x = f.path := by
  simp only [planPaths, List.map_append, List.mem_append, List.map_cons, List.map_nil,
    List.mem_singleton]
  tauto

lemma mem_planPaths_addDeleteLocal {plan : SyncPlan} {f : FileMetadata} {x : String} :
    x ∈ planPaths { plan with deleteLocal := plan.deleteLocal ++ [f] } ↔
      x ∈ planPaths plan ∨ x = f.path := by
  simp only [planPaths, List.map_append, List.mem_append, List.map_cons, List.map_nil,
    List.mem_singleton]
  tauto

lemma mem_planPaths_addDeleteRemote {plan : SyncPlan} {f : FileMetadata} {x : String} :
    x ∈ planPaths { plan with deleteRemote := plan.deleteRemote ++ [f] } ↔
      x ∈ planPaths plan ∨ x = f.path := by
  simp only [planPaths, List.map_append, List.mem_append, List.map_cons, List.map_nil,
    List.mem_singleton]
  tauto

lemma mem_planPaths_addConflict {plan : SyncPlan} {c : ConflictInfo} {x : String} :
    x ∈ planPaths { plan with conflicts := plan.conflicts ++ [c] } ↔
      x ∈ planPaths plan ∨ x = c.path := by
  simp only [planPaths, List.map_append, List.mem_append, List.map_cons, List.map_nil,
    List.mem_singleton]
  tauto

lemma mem_planPaths_planLocalStep {t : Nat} {ri : Index} {plan : SyncPlan}
    {pr : String × FileMetadata} {x : String}
    (hwr : WellFormed ri) (hpr : pr.2.path = pr.1)
    (hx : x ∈ planPaths (planLocalStep t ri plan pr)) :
    x ∈ planPaths plan ∨ x = pr.1 := by
  unfold planLocalStep at hx
  split at hx
  · split_ifs at hx
    · rcases mem_planPaths_addUpload.mp hx with h' | h'
      · exact Or.inl h'
      · exact Or.inr (h'.trans hpr)
    · rcases mem_planPaths_addDeleteLocal.mp hx with h' | h'
      · exact Or.inl h'
      · exact Or.inr (h'.trans hpr)
  · rename_i rf h
    have hrf : rf.path = pr.1 := hwr _ (mem_of_lookup h)
    split_ifs at hx
    · rcases mem_planPaths_addConflict.mp hx with h' | h'
      · exact Or.inl h'
      · exact Or.inr h'
    · rcases mem_planPaths_addUpload.mp hx with h' | h'
      · exact Or.inl h'
      · exact Or.inr (h'.trans hpr)
    · rcases mem_planPaths_addDownload.mp hx with h' | h'
      · exact Or.inl h'
      · exact Or.inr (h'.trans hrf)
    · exact Or.inl hx
    · exact Or.inl hx

lemma mem_planPaths_planRemoteStep {t : Nat} {li : Index} {plan : SyncPlan}
    {pr : String × FileMetadata} {x : String}
    (hpr : pr.2.path = pr.1)
    (hx : x ∈ planPaths (planRemoteStep t li plan pr)) :
    x ∈ planPaths plan ∨ x = pr.1 := by
  unfold planRemoteStep at hx
  split_ifs at hx
  · exact Or.inl hx
  · rcases mem_planPaths_addDownload.mp hx with h' | h'
    · exact Or.inl h'
    · exact Or.inr (h'.trans hpr)
  · rcases mem_planPaths_addDeleteRemote.mp hx with h' | h'
    · exact Or.inl h'
    · exact Or.inr (h'.trans hpr)

lemma foldl_planLocalStep_not_mem {t : Nat} {ri : Index} {p : String}
    {l : List (String × FileMetadata)} {plan : SyncPlan}
    (hwr : WellFormed ri)
    (hl : ∀ pr ∈ l, (pr : String × FileMetadata).2.path = pr.1)
    (hid : ∀ pr ∈ l, pr.1 = p → ∀ q : SyncPlan, planLocalStep t ri q pr = q)
    (hp : p ∉ planPaths plan) :
    p ∉ planPaths (l.foldl (planLocalStep t ri) plan) := by
  induction l generalizing plan with
  | nil => exact hp
  | cons pr rest ih =>
    rw [List.foldl_cons]
    refine ih (fun q hq => hl q (List.mem_cons_of_mem _ hq))
      (fun q hq => hid q (List.mem_cons_of_mem _ hq)) ?_
    by_cases hpp : pr.1 = p
    · rw [hid pr (List.mem_cons_self _ _) hpp]
      exact hp
    · intro hmem
      rcases mem_planPaths_planLocalStep hwr (hl pr (List.mem_cons_self _ _)) hmem with h | h
      · exact hp h
      · exact hpp h.symm

lemma foldl_planRemoteStep_not_mem {t : Nat} {li : Index} {p : String}
    {l : List (String × FileMetadata)} {plan : SyncPlan}
    (hl : ∀ pr ∈ l, (pr : String × FileMetadata).2.path = pr.1)
    (hid : ∀ pr ∈ l, pr.1 = p → ∀ q : SyncPlan, planRemoteStep t li q pr = q)
    (hp : p ∉ planPaths plan) :
    p ∉ planPaths (l.foldl (planRemoteStep t li) plan) := by
  induction l generalizing plan with
  | nil => exact hp
  | cons pr rest ih =>
    rw [List.foldl_cons]
    refine ih (fun q hq => hl q (List.mem_cons_of_mem _ hq))
      (fun q hq => hid q (List.mem_cons_of_mem _ hq)) ?_
    by_cases hpp : pr.1 = p
    · rw [hid pr (List.mem_cons_self _ _) hpp]
      exact hp
    · intro hmem
      rcases mem_planPaths_planRemoteStep (hl pr (List.mem_cons_self _ _)) hmem with h | h
      · exact hp h
      · exact hpp h.symm

/-- C8: for every pair of local and remote indices and every watermark,
the conflicts list of the plan returned by `createSyncPlan` is empty: the
detection condition requires the local mtime to be strictly greater than
the remote modification time and simultaneously strictly smaller, which
no pair of timestamps satisfies. -/
theorem createSyncPlan_conflicts_empty (li ri : Index) (t : Nat) :
    (createSyncPlan li ri t).conflicts = [] := by
  unfold createSyncPlan
  rw [foldl_planRemoteStep_conflicts, foldl_planLocalStep_conflicts]
  rfl

/-- C1 (failing input): with watermark 500, local `c.md` at mtime 600 and
remote `c.md` at remote modification time 700, `createSyncPlan` computes
an empty conflicts list and schedules `c.md` as a download instead — the
spec's Scenario C expects the pair in `plan.conflicts`. -/
theorem scenarioC_download_not_conflict :
    (createSyncPlan scenarioCLocalIndex scenarioCRemoteIndex 500).conflicts = [] ∧
      (createSyncPlan scenarioCLocalIndex scenarioCRemoteIndex 500).downloads =
        [scenarioCRemoteFile] := by
  decide

/-- C6: a path present as a file in both indices with the local mtime
exactly equal to the remote modification time is placed in no category by
`createSyncPlan`, for every watermark. -/
theorem planner_equal_mtime_no_action
    (li ri : Index) (t : Nat) (p : String) (lf rf : FileMetadata)
    (hwl : WellFormed li) (hwr : WellFormed ri)
    (hnd : (li.map Prod.fst).Nodup)
    (hll : List.lookup p li = some lf)
    (hlr : List.lookup p ri = some rf)
    (hlf : lf.isFolder = false) (hrf : rf.isFolder = false)
    (heq : lf.mtime = rf.driveMtime.getD 0) :
    p ∉ planPaths (createSyncPlan li ri t) := by
  unfold createSyncPlan
  apply foldl_planRemoteStep_not_mem
  · exact fun pr h => hwr pr h
  · intro pr hmem hkey q
    unfold planRemoteStep
    rw [hkey, hll]
    simp
  · apply foldl_planLocalStep_not_mem hwr (fun pr h => hwl pr h)
    · intro pr hmem hkey q
      have hm2 : (p, pr.2) ∈ li := by rw [← hkey]; simpa using hmem
      have hv : pr.2 = lf := by
        have h2 := lookup_of_mem_nodup hnd hm2
        rw [hll] at h2
        exact (Option.some.inj h2.symm)
      simp only [planLocalStep, hkey, hv, hlr]
      simp [hlf, hrf, heq]
    · simp [planPaths, emptyPlan]

theorem planner_equal_mtime_no_action_witness :
    "d.md" ∉ planPaths (createSyncPlan [("d.md", equalTimeLocalFile)]
      [("d.md", equalTimeRemoteFile)] 500) :=
  planner_equal_mtime_no_action _ _ _ _ equalTimeLocalFile equalTimeRemoteFile
    (by decide) (by decide) (by decide) (by decide) (by decide) (by decide) (by decide)
    (by decide)

/-- C9: a path present in both indices whose entries disagree on kind, or
where either side is a container, is placed in no category by
`createSyncPlan`: type mismatches are silently left unreconciled. -/
theorem planner_kind_mismatch_no_action
    (li ri : Index) (t : Nat) (p : String) (lf rf : FileMetadata)
    (hwl : WellFormed li) (hwr : WellFormed ri)
    (hnd : (li.map Prod.fst).Nodup)
    (hll : List.lookup p li = some lf)
    (hlr : List.lookup p ri = some rf)
    (hfold : lf.isFolder = true ∨ rf.isFolder = true) :
    p ∉ planPaths (createSyncPlan li ri t) := by
  unfold createSyncPlan
  apply foldl_planRemoteStep_not_mem
  · exact fun pr h => hwr pr h
  · intro pr hmem hkey q
    unfold planRemoteStep
    rw [hkey, hll]
    simp
  · apply foldl_planLocalStep_not_mem hwr (fun pr h => hwl pr h)
    · intro pr hmem hkey q
      have hm2 : (p, pr.2) ∈ li := by rw [← hkey]; simpa using hmem
      have hv : pr.2 = lf := by
        have h2 := lookup_of_mem_nodup hnd hm2
        rw [hll] at h2
        exact (Option.some.inj h2.symm)
      have hng : ¬(lf.isFolder = false ∧ rf.isFolder = false) := by
        rcases hfold with h | h <;> simp [h]
      simp only [planLocalStep, hkey, hv, hlr]
      rw [if_neg hng]
    · simp [planPaths, emptyPlan]

theorem planner_kind_mismatch_no_action_witness :
    "att" ∉ planPaths (createSyncPlan [("att", mismatchLocalFolder)]
      [("att", mismatchRemoteFile)] 500) :=
  planner_kind_mismatch_no_action _ _ _ _ mismatchLocalFolder mismatchRemoteFile
    (by decide) (by decide) (by decide) (by decide) (by decide) (by decide)

lemma runConflicts_ok (fails : PlanItem → Bool)
    (h : ∀ it : PlanItem, it.isDeleteItem = false → fails it = false) :
    ∀ (l : List ConflictInfo) (a : List PlanItem),
      ∃ b, runConflicts fails a l = Except.ok b := by
  intro l
  induction l with
  | nil => exact fun a => ⟨a, rfl⟩
  | cons c rest ih =>
    intro a
    have hc : fails (.conflictItem c) = false := h _ rfl
    simp only [runConflicts, hc, Bool.false_eq_true, if_false]
    exact ih _

lemma runUploads_ok (fails : PlanItem → Bool)
    (h : ∀ it : PlanItem, it.isDeleteItem = false → fails it = false) :
    ∀ (l : List FileMetadata) (a : List PlanItem),
      ∃ b, runUploads fails a l = Except.ok b := by
  intro l
  induction l with
  | nil => exact fun a => ⟨a, rfl⟩
  | cons f rest ih =>
    intro a
    have hf : fails (.uploadItem f) = false := h _ rfl
    by_cases hfo : f.isFolder = true
    · simp only [runUploads, hfo, if_true]
      exact ih _
    · simp only [runUploads, hfo, hf, Bool.false_eq_true, if_false]
      exact ih _

lemma runDownloads_ok (fails : PlanItem → Bool)
    (h : ∀ it : PlanItem, it.isDeleteItem = false → fails it = false) :
    ∀ (l : List FileMetadata) (a : List PlanItem),
      ∃ b, runDownloads fails a l = Except.ok b := by
  intro l
  induction l with
  | nil => exact fun a => ⟨a, rfl⟩
  | cons f rest ih =>
    intro a
    have hf : fails (.downloadItem f) = false := h _ rfl
    by_cases hfo : f.isFolder = true
    · simp only [runDownloads, hfo, if_true]
      exact ih _
    · simp only [runDownloads, hfo, hf, Bool.and_false, Bool.false_eq_true, if_false]
      exact ih _

/-- C3 (amended): local-delete and remote-delete failures are swallowed by
their handlers' catch blocks and never abort execution — whenever no
conflict, upload or download item fails, `executeSyncPlan` completes even
if every deletion fails. -/
theorem executeSyncPlan_delete_failures_never_abort
    (plan : SyncPlan) (fails : PlanItem → Bool)
    (h : ∀ it : PlanItem, it.isDeleteItem = false → fails it = false) :
    ∃ tr, executeSyncPlan fails plan = Except.ok tr := by
  obtain ⟨b1, h1⟩ := runConflicts_ok fails h plan.conflicts []
  obtain ⟨b2, h2⟩ := runUploads_ok fails h plan.uploads b1
  obtain ⟨b3, h3⟩ := runDownloads_ok fails h plan.downloads b2
  have hgoal : executeSyncPlan fails plan =
      Except.ok ((b3 ++ plan.deleteLocal.map PlanItem.deleteLocalItem)
        ++ plan.deleteRemote.map PlanItem.deleteRemoteItem) := by
    simp only [executeSyncPlan, h1, h2, h3]
  exact ⟨_, hgoal⟩

theorem executeSyncPlan_delete_failures_never_abort_witness :
    ∃ tr, executeSyncPlan PlanItem.isDeleteItem deleteOnlyPlan = Except.ok tr :=
  executeSyncPlan_delete_failures_never_abort deleteOnlyPlan PlanItem.isDeleteItem
    (fun _ hit => hit)

/-- C3 (counterexample): in a plan of two uploads whose first transfer
fails, `executeSyncPlan` propagates the error after attempting only the
first item — the second upload is never attempted, so a single failing
file does abort the rest of the run. -/
theorem executeSyncPlan_upload_failure_aborts :
    executeSyncPlan failFirstUpload twoUploadPlan =
        Except.error [PlanItem.uploadItem uploadFileA] ∧
      PlanItem.uploadItem uploadFileB ∉ [PlanItem.uploadItem uploadFileA] := by
  constructor
  · rfl
  · decide

/-- C10 (counterexample): an invocation of `sync()` that begins while
`isSyncing` is already set returns with the flag still true, so not every
invocation resets the flag before returning. -/
theorem sync_busy_leaves_flag_set :
    isSyncInProgress (sync busyState quietEnv).1 = true := by
  rfl

/-- C10 (amended): `sync()` leaves the run-exclusivity flag exactly as it
found it: a run that acquires the flag always resets it (success and
every error path alike), and the busy early-return leaves the flag to the
run that holds it.  In particular any run entered with the flag clear
ends with `isSyncInProgress` false. -/
theorem sync_flag_restored (s : SyncState) (env : SyncEnv) :
    isSyncInProgress (sync s env).1 = isSyncInProgress s := by
  unfold sync isSyncInProgress
  split_ifs <;> (repeat' split) <;> simp_all

/-- C4 (counterexample): a successful run starting at time 100 and
completing at time 200 persists watermark 200 — the completion-time stamp,
not the run's start time. -/
theorem sync_watermark_not_start_time :
    (sync idleState quietEnv).2 = SyncOutcome.success ∧
      (sync idleState quietEnv).1.lastSyncTime = 200 ∧
      quietEnv.startTime = 100 := by
  refine ⟨rfl, rfl, rfl⟩

/-- C4 (amended): the persisted watermark after a run equals the
`Date.now()` stamp taken when execution completes exactly when the run
succeeded; every aborted run — busy, unauthenticated, folder-creation or
indexing failure, or a propagated execution failure — leaves it
unchanged. -/
theorem sync_watermark_update (s : SyncState) (env : SyncEnv) :
    (sync s env).1.lastSyncTime =
      (if (sync s env).2 = SyncOutcome.success then env.completionTime
       else s.lastSyncTime) := by
  unfold sync
  split_ifs <;> (repeat' split) <;> simp_all

lemma excluded_not_in_fileIndexEntries (s : ExclusionSettings) (p : String)
    (h : shouldExclude s p = true) (files : List LocalFile) :
    p ∉ (fileIndexEntries s files).map Prod.fst := by
  intro hmem
  obtain ⟨pr, hpr, hfst⟩ := List.mem_map.mp hmem
  obtain ⟨f, _, heq⟩ := List.mem_filterMap.mp hpr
  by_cases hex : shouldExclude s f.path = true
  · simp [hex] at heq
  · rw [if_neg hex] at heq
    obtain rfl := Option.some.inj heq
    rw [show f.path = p from hfst] at hex
    exact hex h

mutual
lemma excluded_not_in_processAllFolders (s : ExclusionSettings) (p : String)
    (h : shouldExclude s p = true) :
    ∀ fo : VFolder, p ∉ (processAllFolders s fo).map Prod.fst
  | .mk q n children => by
    simp only [processAllFolders, List.map_append, List.mem_append]
    rintro (hmem | hmem)
    · split_ifs at hmem with h1 h2
      · simp at hmem
      · simp at hmem
      · simp only [List.map_cons, List.map_nil, List.mem_singleton] at hmem
        rw [hmem] at h
        exact h1 h
    · exact excluded_not_in_processForest s p h children hmem
lemma excluded_not_in_processForest (s : ExclusionSettings) (p : String)
    (h : shouldExclude s p = true) :
    ∀ fs : VForest, p ∉ (processForest s fs).map Prod.fst
  | .nil => by simp [processForest]
  | .cons f rest => by
    simp only [processForest, List.map_append, List.mem_append]
    rintro (hmem | hmem)
    · exact excluded_not_in_processAllFolders s p h f hmem
    · exact excluded_not_in_processForest s p h rest hmem
end

/-- C2 (amended): a path flagged by `shouldExclude` never appears in the
local index built by `buildLocalFileIndex`; the remote indexer applies no
exclusion, so the symmetric half of the claim fails (see the
counterexample). -/
theorem excluded_not_in_local_index (s : ExclusionSettings) (v : Vault) (p : String)
    (h : shouldExclude s p = true) :
    p ∉ (buildLocalFileIndex s v).map Prod.fst := by
  intro hmem
  rw [buildLocalFileIndex, List.map_append] at hmem
  rcases List.mem_append.mp hmem with hm | hm
  · exact excluded_not_in_fileIndexEntries s p h v.files hm
  · exact excluded_not_in_processAllFolders s p h v.root hm

theorem excluded_not_in_local_index_witness :
    ".obsidian/app.json" ∉
      (buildLocalFileIndex defaultExclusionSettings sampleVault).map Prod.fst :=
  excluded_not_in_local_index defaultExclusionSettings sampleVault _ (by decide)

/-- C2 (counterexample): `shouldExclude` flags `x.tmp`, yet
`buildRemoteFileIndex` indexes the remote file `x.tmp`: the remote index
is built with no exclusion filtering, refuting the symmetry claim. -/
theorem excluded_path_in_remote_index :
    shouldExclude tmpOnlySettings "x.tmp" = true ∧
      "x.tmp" ∈ (buildRemoteFileIndex "" remoteTmpForest).map Prod.fst := by
  decide

lemma splitOnCh_ne_nil (sep : Char) (l : List Char) : splitOnCh sep l ≠ [] := by
  cases l with
  | nil => simp [splitOnCh]
  | cons c cs =>
    rw [splitOnCh]
    split
    · simp
    · split_ifs <;> simp

lemma joinWithCh_splitOnCh (sep : Char) (l : List Char) :
    joinWithCh sep (splitOnCh sep l) = l := by
  induction l with
  | nil => rfl
  | cons c cs ih =>
    rw [splitOnCh]
    split
    · rename_i hn
      exact absurd hn (splitOnCh_ne_nil sep cs)
    · rename_i s rest hsr
      rw [hsr] at ih
      split_ifs with hc
      · subst hc
        simp only [joinWithCh, List.nil_append]
        rw [ih]
      · cases rest with
        | nil =>
          simp only [joinWithCh] at ih ⊢
          rw [ih]
        | cons t ts =>
          simp only [joinWithCh, List.cons_append] at ih ⊢
          rw [ih]

lemma startsWithL_append_same (x u v : List Char) :
    startsWithL (x ++ u) (x ++ v) = startsWithL u v := by
  induction x with
  | nil => rfl
  | cons c cs ih => simp [startsWithL, ih]

lemma startsWithL_self_append (x y : List Char) : startsWithL x (x ++ y) = true := by
  induction x with
  | nil => rfl
  | cons c cs ih => simp [startsWithL, ih]

lemma segsPre_startsWithL (sep : Char) :
    ∀ A B : List (List Char), segsPre A B = true →
      startsWithL (joinWithCh sep A) (joinWithCh sep B) = true := by
  intro A
  induction A with
  | nil => intro B _; rfl
  | cons a as ih =>
    intro B h
    cases B with
    | nil => simp [segsPre] at h
    | cons b bs =>
      simp only [segsPre, Bool.and_eq_true, decide_eq_true_eq] at h
      obtain ⟨hab, htl⟩ := h
      subst hab
      cases as with
      | nil =>
        cases bs with
        | nil => simpa using startsWithL_self_append a []
        | cons b' bs' => simp [joinWithCh, startsWithL_self_append]
      | cons a' as' =>
        cases bs with
        | nil => simp [segsPre] at htl
        | cons b' bs' =>
          have hrec := ih (b' :: bs') htl
          simp only [joinWithCh]
          rw [startsWithL_append_same]
          simpa [startsWithL] using hrec

/-- C5 (amended): the folder rule is a raw string-prefix test, so every
segment-aligned match is excluded (this direction of the claim holds);
the converse fails because non-segment-aligned raw prefixes such as
`.git` against `.github/workflows.md` are excluded too. -/
theorem segment_match_implies_excluded (s : ExclusionSettings) (folder path : String)
    (hmem : folder ∈ s.excludedFolders)
    (hseg : segmentPrefixMatch folder path = true) :
    shouldExclude s path = true := by
  have hs : jsStartsWith path folder = true := by
    have h0 := segsPre_startsWithL '/' _ _ hseg
    rw [joinWithCh_splitOnCh, joinWithCh_splitOnCh] at h0
    exact h0
  unfold shouldExclude
  simp only [Bool.or_eq_true, List.any_eq_true]
  exact Or.inl (Or.inl ⟨folder, hmem, Or.inl hs⟩)

theorem segment_match_implies_excluded_witness :
    shouldExclude gitOnlySettings ".git/config" = true :=
  segment_match_implies_excluded gitOnlySettings ".git" ".git/config"
    (by decide) (by decide)

/-- C5 (counterexample): with `.git` the only exclusion rule,
`shouldExclude` excludes `.github/workflows.md` even though `.git` is
neither equal to that path nor a leading sequence of its `/`-separated
segments — the claimed "only if" direction fails. -/
theorem folder_rule_not_segment_aligned :
    shouldExclude gitOnlySettings ".github/workflows.md" = true ∧
      segmentPrefixMatch ".git" ".github/workflows.md" = false ∧
      ".git" ≠ ".github/workflows.md" := by
  decide

/-- C7: under the `'ask'` policy `resolveConflict` first creates a local
copy under the collision name (marker plus timestamp before the
extension) holding the original content, then downloads the remote entry
to the original path, so both versions survive. -/
theorem resolveConflict_ask_keeps_both
    (c : ConflictInfo) (remoteContent : String → String) (fs : List (String × String))
    (now : Nat) (fid orig : String)
    (hid : c.remoteFile.driveId = some fid)
    (hpath : c.remoteFile.path = c.path)
    (hread : List.lookup c.path fs = some orig)
    (hne : conflictCopyName c.path now ≠ c.path) :
    ∃ ops, resolveConflictOps ConflictResolution.ask remoteContent fs now c = some ops ∧
      ops.head? = some (FsOp.createLocal (conflictCopyName c.path now) orig) ∧
      ops.getLast? = some (FsOp.writeLocal c.path (remoteContent fid)) ∧
      List.lookup (conflictCopyName c.path now) (applyFsOps fs ops) = some orig ∧
      List.lookup c.path (applyFsOps fs ops) = some (remoteContent fid) := by
  have hb : (conflictCopyName c.path now == c.path) = false :=
    beq_eq_false_iff_ne.mpr hne
  by_cases hpar : parentPath c.path = ""
  · refine ⟨[FsOp.createLocal (conflictCopyName c.path now) orig,
      FsOp.writeLocal c.path (remoteContent fid)], ?_, rfl, rfl, ?_, ?_⟩
    · simp [resolveConflictOps, hread, downloadFileOps, hid, hpar, hpath]
    · simp [applyFsOps, applyFsOp, List.lookup_cons, hb]
    · simp [applyFsOps, applyFsOp, List.lookup_cons]
  · refine ⟨[FsOp.createLocal (conflictCopyName c.path now) orig,
      FsOp.ensureDir (parentPath c.path),
      FsOp.writeLocal c.path (remoteContent fid)], ?_, rfl, rfl, ?_, ?_⟩
    · simp [resolveConflictOps, hread, downloadFileOps, hid, hpar, hpath]
    · simp [applyFsOps, applyFsOp, List.lookup_cons, hb]
    · simp [applyFsOps, applyFsOp, List.lookup_cons]

theorem resolveConflict_ask_keeps_both_witness :
    ∃ ops, resolveConflictOps ConflictResolution.ask (fun _ => "remote-bytes")
        [("c.md", "local-bytes")] 12345 scenarioCConflict = some ops ∧
      ops.head? = some (FsOp.createLocal (conflictCopyName "c.md" 12345) "local-bytes") ∧
      ops.getLast? = some (FsOp.writeLocal "c.md" "remote-bytes") ∧
      List.lookup (conflictCopyName "c.md" 12345)
        (applyFsOps [("c.md", "local-bytes")] ops) = some "local-bytes" ∧
      List.lookup "c.md" (applyFsOps [("c.md", "local-bytes")] ops) =
        some "remote-bytes" :=
  resolveConflict_ask_keeps_both scenarioCConflict (fun _ => "remote-bytes")
    [("c.md", "local-bytes")] 12345 "rid" "local-bytes"
    (by decide) (by decide) (by decide) (by decide)

end GSync
